import Mathlib

/-!
Shallow embedding of the eduid-scimapi optimistic-concurrency document
synchronization core (`basedb.py`, `groupdb.py`, `db/invitedb.py`,
`resources/users.py`) for checking the repository's specification.

The MongoDB collection backing a `ScimApiBaseDB` is embedded as a list of
documents; the collection primitives used by the code (`replace_one` with
`upsert=False`, `find_one`, `insert_one`, `count`, `find` with skip/limit)
are given as pure functions over that list.  Opaque tokens (`ObjectId`
values used for `_id` and `version`) and timestamps (`datetime`) are
embedded as natural numbers; freshly minted tokens become explicit
function arguments.
-/

set_option autoImplicit false

namespace EduidScim

/-- A document in a MongoDB collection.  `id` is the `_id` field, `version`
and `lastModified` the optimistic-concurrency fields common to all record
kinds; the per-kind payload (everything else in `to_dict`) is `body`. -/
structure DbDoc (B : Type) where
  id : Nat
  version : Nat
  lastModified : Nat
  body : B
deriving DecidableEq, Repr

/-- Model of pymongo `Collection.replace_one(test_doc, new_doc, upsert=False)`
where `test_doc = {'_id': tid, 'version': tver}`: replace the first document
matching the filter, returning the new collection and `modified_count`.
Replacing a document by an identical document counts as matched but not
modified (`modified_count = 0`), exactly as in MongoDB. -/
def replaceOne {B : Type} [DecidableEq B] :
    List (DbDoc B) → Nat → Nat → DbDoc B → List (DbDoc B) × Nat
  | [], _, _, _ => ([], 0)
  | d :: ds, tid, tver, nd =>
    if d.id = tid ∧ d.version = tver then
      if nd = d then (d :: ds, 0) else (nd :: ds, 1)
    else
      let r := replaceOne ds tid tver nd
      (d :: r.1, r.2)

/-- Model of pymongo `Collection.find_one({'_id': tid})`. -/
def findOne {B : Type} (s : List (DbDoc B)) (tid : Nat) : Option (DbDoc B) :=
  s.find? (fun d => d.id == tid)

/-- Store-access events, in the order the protocol functions perform them.
`docReplace` records the `modified_count` of the `replace_one` call. -/
inductive Ev where
  | docReplace (modified : Nat)
  | docFind
  | docInsert
  | graphSave
deriving DecidableEq, Repr

/-- A document-store commit: a `replace_one` that modified a document, or an
`insert_one`. -/
def Ev.isDocCommit : Ev → Bool
  | .docReplace m => decide (1 ≤ m)
  | .docInsert => true
  | _ => false

/-- Failures raised by `save`: `RuntimeError('... out of sync, please retry')`
(the optimistic-lock conflict), and pymongo's `DuplicateKeyError`, whose
`errmsg` names the violated unique index. -/
inductive SaveError where
  | conflict
  | duplicateKey (errmsg : String)
deriving DecidableEq, Repr

/-- The outcome of `save`: the collection after the call, the caller's
in-memory record after the call (the Python code mutates it in place), the
exception raised if any, the returned `result.acknowledged` boolean, and the
trace of store accesses performed. -/
structure SaveResult (B : Type) where
  store : List (DbDoc B)
  record : DbDoc B
  error : Option SaveError
  committed : Bool
  trace : List Ev
deriving DecidableEq, Repr

/-- `ScimApiGroupDB.save` (groupdb.py lines 82-108), line-identical with
`ScimApiInviteDB.save` (db/invitedb.py lines 88-114); the record kind is the
type parameter `B` and the unique-index check performed by MongoDB at
`insert_one` time is the parameter `viol` (returning the `errmsg` of the
violated index, if any).  `newVer` is the fresh `ObjectId()` minted for
`version` and `now` the `datetime.utcnow()` written to `last_modified`.
An acknowledged write has `result.acknowledged = True`, which is what the
function returns on every non-raising path. -/
def save {B : Type} [DecidableEq B] (viol : List (DbDoc B) → DbDoc B → Option String)
    (s : List (DbDoc B)) (r : DbDoc B) (newVer now : Nat) : SaveResult B :=
  match replaceOne s r.id r.version { r with version := newVer, lastModified := now } with
  | (s1, 0) =>
    match findOne s1 r.id with
    | some _ =>
      { store := s1, record := r, error := some .conflict, committed := false,
        trace := [.docReplace 0, .docFind] }
    | none =>
      match viol s1 { r with version := newVer, lastModified := now } with
      | some msg =>
        { store := s1, record := r, error := some (.duplicateKey msg), committed := false,
          trace := [.docReplace 0, .docFind] }
      | none =>
        { store := s1 ++ [{ r with version := newVer, lastModified := now }],
          record := { r with version := newVer, lastModified := now }, error := none,
          committed := true, trace := [.docReplace 0, .docFind, .docInsert] }
  | (s1, m + 1) =>
    { store := s1, record := { r with version := newVer, lastModified := now }, error := none,
      committed := true, trace := [.docReplace (m + 1)] }

/-- Model of `BaseDB.db_count(spec)`: the number of documents matching the
filter at the time of the call. -/
def dbCount {B : Type} (s : List (DbDoc B)) (spec : DbDoc B → Bool) : Nat :=
  (s.filter spec).length

/-- Failures of the document store adapter: `DocumentDoesNotExist` raised by
`_get_documents_by_filter` when nothing matches and `raise_on_missing` is
set, and the `ValueError('Invalid filter operator')` raised by
`get_invites_by_last_modified`. -/
inductive DbError where
  | documentDoesNotExist
  | invalidFilterOperator
deriving DecidableEq, Repr

/-- The default of the `raise_on_missing` keyword of
`_get_documents_and_count_by_filter` (basedb.py line 16). -/
def raiseOnMissingDefault : Bool := true

/-- Model of `BaseDB._get_documents_by_filter`: fetch the matching documents,
apply `skip` then `limit` (as the MongoDB cursor does), and raise
`DocumentDoesNotExist` if the result is empty and `raise_on_missing` is set
(the behaviour documented in basedb.py lines 25-27). -/
def getDocumentsByFilter {B : Type} (s : List (DbDoc B)) (spec : DbDoc B → Bool)
    (limit skip : Option Nat) (raiseOnMissing : Bool) : Except DbError (List (DbDoc B)) :=
  let matched := s.filter spec
  let afterSkip := match skip with | none => matched | some k => matched.drop k
  let docs := match limit with | none => afterSkip | some l => afterSkip.take l
  if docs.isEmpty && raiseOnMissing then .error .documentDoesNotExist else .ok docs

/-- `ScimApiBaseDB._get_documents_and_count_by_filter` (basedb.py lines
10-40).  The initial `db_count` and the subsequent fetch are not atomic
against concurrent writers, so they are given separate snapshots of the
collection (`countStore` at count time, `fetchStore` at fetch time). -/
def getDocumentsAndCountByFilter {B : Type} (countStore fetchStore : List (DbDoc B))
    (spec : DbDoc B → Bool) (limit skip : Option Nat) (raiseOnMissing : Bool) :
    Except DbError (List (DbDoc B) × Nat) :=
  let totalCount := dbCount countStore spec
  match getDocumentsByFilter fetchStore spec limit skip raiseOnMissing with
  | .error e => .error e
  | .ok docs =>
    let numDocs := docs.length
    if limit.isNone || decide (numDocs < limit.getD 0) then
      .ok (docs, numDocs + (match skip with | none => 0 | some k => k))
    else
      .ok (docs, totalCount)

/-! ## Invite and User stores -/

/-- The payload common to the User and Invite documents as far as the save
protocol and the unique indexes are concerned: `scim_id`, the optional
`external_id`, and the remaining type-specific fields collapsed into an
opaque `payload`. -/
structure ResBody where
  scimId : String
  externalId : Option String
  payload : Nat
deriving DecidableEq, Repr

/-- `leadsWith needle hay` is true when `needle` is an initial segment of
`hay`. -/
def leadsWith : List Char → List Char → Bool
  | [], _ => true
  | _ :: _, [] => false
  | a :: as, b :: bs => a == b && leadsWith as bs

/-- `occursIn needle hay` is true when `needle` occurs contiguously inside
`hay`. -/
def occursIn (needle : List Char) : List Char → Bool
  | [] => leadsWith needle []
  | b :: bs => leadsWith needle (b :: bs) || occursIn needle bs

/-- Substring test, modelling Python's `sub in s`. -/
def strContains (s sub : String) : Bool :=
  occursIn sub.data s.data

/-- The unique indexes set up in `ScimApiInviteDB.__init__` (db/invitedb.py
lines 82-85): `scim_id` unique, `external_id` unique and sparse.  Returns
the name of the violated index (which pymongo reports inside
`DuplicateKeyError.details['errmsg']`), if any.  Because the `external_id`
index is sparse, a document whose `external_id` is absent is never checked
against it. -/
def uniqueIndexViolation (s : List (DbDoc ResBody)) (d : DbDoc ResBody) : Option String :=
  if s.any (fun x => x.body.scimId == d.body.scimId) then some "unique-scimid"
  else
    match d.body.externalId with
    | none => none
    | some e =>
      if s.any (fun x => x.body.externalId == some e) then some "unique-external-id"
      else none

/-- What `UsersResource._save_user` leaves the HTTP layer with: a successful
save, a `BadRequest` with the given detail, or the propagated out-of-sync
`RuntimeError` (not caught by `_save_user`). -/
inductive UserSaveOutcome where
  | ok (res : SaveResult ResBody)
  | badRequest (detail : String)
  | conflict
deriving DecidableEq, Repr

/-- The `try`/`except DuplicateKeyError` of `UsersResource._save_user`
(resources/users.py lines 86-93), applied to the outcome of the underlying
save: a `DuplicateKeyError` becomes a `BadRequest`, distinguished by
whether the error message names the `external-id` index; other outcomes
pass through. -/
def dupKeyToOutcome (res : SaveResult ResBody) : UserSaveOutcome :=
  match res.error with
  | none => .ok res
  | some .conflict => .conflict
  | some (.duplicateKey msg) =>
    if strContains msg "external-id" then .badRequest "externalID must be unique"
    else .badRequest "Duplicated key error"

/-- `UsersResource._save_user` (resources/users.py lines 86-93): run the
user database save and translate `DuplicateKeyError` into a `BadRequest`.
The user database's `save` and indexes are not under src/; per spec section
4.2 the save algorithm is applied identically for User, Group and Invite,
so the Invite store's `save` and unique indexes (which are under src/)
stand in for them. -/
def saveUserResource (s : List (DbDoc ResBody)) (r : DbDoc ResBody) (newVer now : Nat) :
    UserSaveOutcome :=
  dupKeyToOutcome (save uniqueIndexViolation s r newVer now)

/-- The operator mapping of `ScimApiInviteDB.get_invites_by_last_modified`
(db/invitedb.py line 129): `{'gt': '$gt', 'ge': '$gte'}.get(operator)`. -/
def mongoOperator (operator : String) : Option String :=
  if operator = "gt" then some "$gt"
  else if operator = "ge" then some "$gte"
  else none

/-- The MongoDB filter `{'last_modified': {mongo_operator: value}}` as a
predicate on documents. -/
def lastModifiedSpec (mop : String) (value : Nat) : DbDoc ResBody → Bool :=
  fun d => if mop = "$gt" then decide (value < d.lastModified) else decide (value ≤ d.lastModified)

/-- `ScimApiInviteDB.get_invites_by_last_modified` (db/invitedb.py lines
125-135).  The operator is validated before the store is touched; the
query then delegates to `_get_documents_and_count_by_filter` with its
default `raise_on_missing`. -/
def getInvitesByLastModified (countStore fetchStore : List (DbDoc ResBody))
    (operator : String) (value : Nat) (limit skip : Option Nat) :
    Except DbError (List (DbDoc ResBody) × Nat) :=
  match mongoOperator operator with
  | none => .error .invalidFilterOperator
  | some mop =>
    getDocumentsAndCountByFilter countStore fetchStore (lastModifiedSpec mop value)
      limit skip raiseOnMissingDefault

/-! ## Graph store and the group projection reconciler -/

/-- A member node in the graph store (eduid_groupdb `User` or `Group` used
as a member): `isUser` tells the two node kinds apart. -/
structure GraphMember where
  isUser : Bool
  identifier : String
  displayName : Option String
deriving DecidableEq, Repr

/-- A group in the graph store.  `update_group` can append Python `None` to
the members list (see `memberStep` below), so members are `Option`-valued;
a well-formed stored graph has only `some` entries. -/
structure GraphGroup where
  identifier : String
  displayName : String
  members : List (Option GraphMember)
deriving DecidableEq, Repr

/-- eduid_groupdb `Group.get_member_user(identifier)`: the first user-kind
member with the given identifier, or `None`. -/
def GraphGroup.getMemberUser (g : GraphGroup) (i : String) : Option GraphMember :=
  (g.members.filterMap id).find? (fun m => m.isUser && m.identifier == i)

/-- eduid_groupdb `Group.get_member_group(identifier)`: the first group-kind
member with the given identifier, or `None`. -/
def GraphGroup.getMemberOfKindGroup (g : GraphGroup) (i : String) : Option GraphMember :=
  (g.members.filterMap id).find? (fun m => !m.isUser && m.identifier == i)

/-- The graph database: groups keyed by identifier.  `GroupDB.save` upserts
by identifier and returns the saved group. -/
def graphDbSave (gs : List GraphGroup) (g : GraphGroup) : List GraphGroup :=
  if gs.any (fun x => x.identifier == g.identifier) then
    gs.map (fun x => if x.identifier == g.identifier then g else x)
  else gs ++ [g]

/-- The document-store payload of `ScimApiGroup.to_dict` apart from `_id`,
`version` and `last_modified`: `scim_id`, `created`, `display_name` and the
`GroupExtensions` data (kept opaque). -/
structure GroupBody where
  scimId : String
  created : Nat
  displayName : String
  extData : Nat
deriving DecidableEq, Repr

/-- `ScimApiGroup` (groupdb.py lines 37-46): the document fields together
with the attached graph projection (`graph` is optional in Python; the
reconciler requires it, so it is carried directly here). -/
structure ScimApiGroup where
  displayName : String
  groupId : Nat
  scimId : String
  version : Nat
  created : Nat
  lastModified : Nat
  extData : Nat
  graph : GraphGroup
deriving DecidableEq, Repr

/-- `ScimApiGroup.to_dict`: the document written to the group collection
(the `graph` attribute is deleted before writing). -/
def ScimApiGroup.toDoc (g : ScimApiGroup) : DbDoc GroupBody :=
  { id := g.groupId, version := g.version, lastModified := g.lastModified,
    body := { scimId := g.scimId, created := g.created,
              displayName := g.displayName, extData := g.extData } }

/-- `ScimApiGroupDB.__init__` sets up no unique indexes, so no insert in the
group collection raises `DuplicateKeyError`. -/
def groupViol : List (DbDoc GroupBody) → DbDoc GroupBody → Option String :=
  fun _ _ => none

/-- A member entry of an incoming SCIM group payload: `value` (the member's
scim id), `ref` (the resource URL, whose path discriminates Users from
Groups) and `display`. -/
structure ScimMember where
  value : String
  ref : String
  display : Option String
deriving DecidableEq, Repr

/-- The incoming SCIM group payload as consumed by `create_group` and
`update_group`: `display_name`, `members`, and the `nutid_group_v1.data`
extension payload (kept opaque). -/
structure ScimGroupReq where
  displayName : String
  members : List ScimMember
  nutidData : Nat
deriving DecidableEq, Repr

/-- One iteration of the member loop of `ScimApiGroupDB.update_group`
(groupdb.py lines 124-149) over the accumulator
`(member_changed, members)`.  The branches mirror the source:
`'Users' in member.ref` is checked first, then `'Groups' in member.ref`;
an existing member with a differing display name is updated in place; a
missing user-kind member is created as a fresh graph user, while for a
missing group-kind member the source repeats the `get_member_group` lookup
(which again yields `None`), so `None` is appended; a member whose `ref`
matches neither kind also appends `None` with `member_changed` set. -/
def memberStep (g : GraphGroup) (acc : Bool × List (Option GraphMember))
    (member : ScimMember) : Bool × List (Option GraphMember) :=
  if strContains member.ref "Users" then
    match g.getMemberUser member.value with
    | none =>
      (true, acc.2 ++ [some { isUser := true, identifier := member.value,
                              displayName := member.display }])
    | some um =>
      if um.displayName ≠ member.display then
        (true, acc.2 ++ [some { um with displayName := member.display }])
      else (acc.1, acc.2 ++ [some um])
  else if strContains member.ref "Groups" then
    match g.getMemberOfKindGroup member.value with
    | none => (true, acc.2 ++ [g.getMemberOfKindGroup member.value])
    | some gm =>
      if gm.displayName ≠ member.display then
        (true, acc.2 ++ [some { gm with displayName := member.display }])
      else (acc.1, acc.2 ++ [some gm])
  else (true, acc.2 ++ [none])

/-- Python `set(a) != set(b)` negated: equality of the two lists viewed as
sets. -/
def listSetEq {α : Type} [BEq α] (a b : List α) : Bool :=
  a.all (fun x => b.contains x) && b.all (fun x => a.contains x)

/-- The outcome of `create_group` / `update_group`: the returned group
record, both stores after the call, the propagated save failure if any, and
the trace of store accesses. -/
structure GroupOpResult where
  group : ScimApiGroup
  docStore : List (DbDoc GroupBody)
  graphStore : List GraphGroup
  error : Option SaveError
  trace : List Ev
deriving DecidableEq, Repr

/-- Lines 170-177 of `ScimApiGroupDB.update_group`, applied to the outcome
of the document-store save of the changed record `db1`: a raised save
failure propagates with the graph store untouched; an acknowledged save is
followed by the graph-store save (`if self.save(db_group): db_group.graph =
self.graphdb.save(db_group.graph)`); a non-acknowledged save only logs a
warning. -/
def dualCommit (graphStore : List GraphGroup) (db1 : ScimApiGroup)
    (sres : SaveResult GroupBody) : GroupOpResult :=
  match sres.error with
  | some e =>
    { group := db1, docStore := sres.store, graphStore := graphStore,
      error := some e, trace := sres.trace }
  | none =>
    if sres.committed then
      { group := { db1 with version := sres.record.version,
                            lastModified := sres.record.lastModified },
        docStore := sres.store, graphStore := graphDbSave graphStore db1.graph,
        error := none, trace := sres.trace ++ [.graphSave] }
    else
      { group := { db1 with version := sres.record.version,
                            lastModified := sres.record.lastModified },
        docStore := sres.store, graphStore := graphStore,
        error := none, trace := sres.trace }

/-- `ScimApiGroupDB.update_group` (groupdb.py lines 119-177).  The member
loop and the display-name / membership / extensions comparisons happen on
the in-memory record; only if anything changed is `save` called, and only
when it returns an acknowledged write is the graph store saved. -/
def updateGroup (docStore : List (DbDoc GroupBody)) (graphStore : List GraphGroup)
    (scim : ScimGroupReq) (dbGroup : ScimApiGroup) (newVer now : Nat) : GroupOpResult :=
  let r0 := scim.members.foldl (memberStep dbGroup.graph) (false, [])
  let memberChanged := r0.1
  let members := r0.2
  let displayChanged := !(dbGroup.graph.displayName == scim.displayName)
  let g1 := if displayChanged then { dbGroup.graph with displayName := scim.displayName }
            else dbGroup.graph
  let membersDiffer := memberChanged || !(listSetEq dbGroup.graph.members members)
  let g2 := if membersDiffer then { g1 with members := members } else g1
  let extChanged := !(dbGroup.extData == scim.nutidData)
  let db1 : ScimApiGroup :=
    { dbGroup with graph := g2,
                   extData := if extChanged then scim.nutidData else dbGroup.extData }
  let changed := displayChanged || membersDiffer || extChanged
  if changed then
    dualCommit graphStore db1 (save groupViol docStore db1.toDoc newVer now)
  else
    { group := dbGroup, docStore := docStore, graphStore := graphStore,
      error := none, trace := [] }

/-- `ScimApiGroupDB.create_group` (groupdb.py lines 110-117): build the new
record with fresh identifiers, save its graph projection to the graph
database FIRST, then run the document-store `save`. -/
def createGroup (docStore : List (DbDoc GroupBody)) (graphStore : List GraphGroup)
    (scim : ScimGroupReq) (newGroupId : Nat) (newScimId : String)
    (initVer newVer now : Nat) : GroupOpResult :=
  let group0 : ScimApiGroup :=
    { displayName := scim.displayName, groupId := newGroupId, scimId := newScimId,
      version := initVer, created := now, lastModified := now, extData := scim.nutidData,
      graph := { identifier := newScimId, displayName := scim.displayName, members := [] } }
  let gs1 := graphDbSave graphStore group0.graph
  let sres := save groupViol docStore group0.toDoc newVer now
  match sres.error with
  | some e =>
    { group := group0, docStore := sres.store, graphStore := gs1,
      error := some e, trace := .graphSave :: sres.trace }
  | none =>
    { group := { group0 with version := sres.record.version,
                             lastModified := sres.record.lastModified },
      docStore := sres.store, graphStore := gs1,
      error := none, trace := .graphSave :: sres.trace }

section ConcreteInputs

/-! Concrete records used by the witnesses and counterexamples below. -/

def mU : GraphMember := ⟨true, "u1", some "User One"⟩
def mG : GraphMember := ⟨false, "g1", some "Group One"⟩
def gr0 : GraphGroup := ⟨"sid0", "Team", [some mU, some mG]⟩
def dbg0 : ScimApiGroup := ⟨"Team", 10, "sid0", 20, 30, 40, 7, gr0⟩
def scimNewG : ScimGroupReq := ⟨"Team", [⟨"g2", "Groups", some "Group Two"⟩], 7⟩

end ConcreteInputs

/-! ## Lemmas about the collection primitives -/

theorem replaceOne_of_no_match {B : Type} [DecidableEq B] (s : List (DbDoc B))
    (tid tver : Nat) (nd : DbDoc B)
    (h : ∀ d ∈ s, ¬(d.id = tid ∧ d.version = tver)) :
    replaceOne s tid tver nd = (s, 0) := by
  induction s with
  | nil => rfl
  | cons d ds ih =>
    have hd := h d (List.mem_cons_self d ds)
    have hds := ih (fun x hx => h x (List.mem_cons_of_mem d hx))
    simp only [replaceOne, if_neg hd, hds]

theorem replaceOne_store_of_zero {B : Type} [DecidableEq B] (s : List (DbDoc B))
    (tid tver : Nat) (nd : DbDoc B)
    (h : (replaceOne s tid tver nd).2 = 0) :
    (replaceOne s tid tver nd).1 = s := by
  induction s with
  | nil => rfl
  | cons d ds ih =>
    simp only [replaceOne] at h ⊢
    by_cases hc : d.id = tid ∧ d.version = tver
    · rw [if_pos hc] at h ⊢
      by_cases hnd : nd = d
      · rw [if_pos hnd]
      · rw [if_neg hnd] at h
        exact absurd h one_ne_zero
    · rw [if_neg hc] at h ⊢
      simp only at h ⊢
      rw [ih h]

theorem replaceOne_mem_of_modified {B : Type} [DecidableEq B] (s : List (DbDoc B))
    (tid tver : Nat) (nd : DbDoc B)
    (h : (replaceOne s tid tver nd).2 ≠ 0) :
    nd ∈ (replaceOne s tid tver nd).1 := by
  induction s with
  | nil => exact absurd rfl h
  | cons d ds ih =>
    simp only [replaceOne] at h ⊢
    by_cases hc : d.id = tid ∧ d.version = tver
    · rw [if_pos hc] at h ⊢
      by_cases hnd : nd = d
      · rw [if_pos hnd] at h
        exact absurd rfl h
      · rw [if_neg hnd]
        exact List.mem_cons_self nd ds
    · rw [if_neg hc] at h ⊢
      simp only at h ⊢
      exact List.mem_cons_of_mem d (ih h)

theorem findOne_eq_none_iff {B : Type} (s : List (DbDoc B)) (tid : Nat) :
    findOne s tid = none ↔ ∀ d ∈ s, d.id ≠ tid := by
  simp [findOne, List.find?_eq_none]

/-- Case analysis of `save`: it either raises the out-of-sync conflict, or
raises a duplicate-key failure, or commits; in the two raising cases the
collection and the caller's record are untouched, and in the committing
case the record carries the new version and timestamp, the new document is
in the collection and the trace ends in a document commit. -/
theorem save_cases {B : Type} [DecidableEq B]
    (viol : List (DbDoc B) → DbDoc B → Option String)
    (s : List (DbDoc B)) (r : DbDoc B) (nv now : Nat) :
    ((save viol s r nv now).error = some .conflict ∧
       (save viol s r nv now).store = s ∧ (save viol s r nv now).record = r ∧
       (save viol s r nv now).trace = [.docReplace 0, .docFind]) ∨
    ((∃ msg, (save viol s r nv now).error = some (.duplicateKey msg)) ∧
       (save viol s r nv now).store = s ∧ (save viol s r nv now).record = r ∧
       (save viol s r nv now).trace = [.docReplace 0, .docFind]) ∨
    ((save viol s r nv now).error = none ∧ (save viol s r nv now).committed = true ∧
       (save viol s r nv now).record = { r with version := nv, lastModified := now } ∧
       ({ r with version := nv, lastModified := now } : DbDoc B) ∈ (save viol s r nv now).store ∧
       ((save viol s r nv now).trace = [.docReplace 0, .docFind, .docInsert] ∨
        ∃ m, (save viol s r nv now).trace = [.docReplace m] ∧ 1 ≤ m)) := by
  rcases hrr : replaceOne s r.id r.version { r with version := nv, lastModified := now }
    with ⟨s1, m⟩
  cases m with
  | zero =>
    have hst : s1 = s := by
      have := replaceOne_store_of_zero s r.id r.version
        { r with version := nv, lastModified := now } (by rw [hrr])
      rwa [hrr] at this
    subst hst
    cases hf : findOne s1 r.id with
    | some d => simp [save, hrr, hf]
    | none =>
      cases hv : viol s1 { r with version := nv, lastModified := now } with
      | some msg => simp [save, hrr, hf, hv]
      | none => simp [save, hrr, hf, hv]
  | succ k =>
    have hmem : ({ r with version := nv, lastModified := now } : DbDoc B) ∈ s1 := by
      have := replaceOne_mem_of_modified s r.id r.version
        { r with version := nv, lastModified := now } (by rw [hrr]; exact Nat.succ_ne_zero k)
      rwa [hrr] at this
    have hsv : save viol s r nv now =
        { store := s1, record := { r with version := nv, lastModified := now }, error := none,
          committed := true, trace := [.docReplace (k + 1)] } := by
      simp [save, hrr]
    rw [hsv]
    exact Or.inr (Or.inr ⟨rfl, rfl, rfl, hmem, Or.inr ⟨k + 1, rfl, Nat.le_add_left 1 k⟩⟩)

/-! ## Claims about the optimistic save protocol -/

/-- C1: for every record passed to `save`: if no stored document has the
record's `internal_id`, `save` does not report `Conflict` and (when no
unique index is violated at insert time) inserts the new document; if a
stored document with that `internal_id` exists but its version differs from
the record's version, `save` reports `Conflict` and performs no insert or
replace (the collection is unchanged). -/
theorem save_insert_vs_conflict {B : Type} [DecidableEq B]
    (viol : List (DbDoc B) → DbDoc B → Option String)
    (s : List (DbDoc B)) (r : DbDoc B) (nv now : Nat) :
    ((∀ d ∈ s, d.id ≠ r.id) →
       (save viol s r nv now).error ≠ some .conflict ∧
       (viol s { r with version := nv, lastModified := now } = none →
         (save viol s r nv now).error = none ∧
         ({ r with version := nv, lastModified := now } : DbDoc B) ∈
           (save viol s r nv now).store)) ∧
    ((∃ d ∈ s, d.id = r.id) → (∀ d ∈ s, d.id = r.id → d.version ≠ r.version) →
       (save viol s r nv now).error = some .conflict ∧
       (save viol s r nv now).store = s) := by
  constructor
  · intro h
    have hnm : replaceOne s r.id r.version { r with version := nv, lastModified := now } =
        (s, 0) :=
      replaceOne_of_no_match _ _ _ _ (fun d hd hc => h d hd hc.1)
    have hf : findOne s r.id = none := (findOne_eq_none_iff s r.id).mpr h
    constructor
    · intro hc
      cases hv : viol s { r with version := nv, lastModified := now } with
      | some msg => simp [save, hnm, hf, hv] at hc
      | none => simp [save, hnm, hf, hv] at hc
    · intro hv
      simp [save, hnm, hf, hv]
  · intro h1 h2
    have hnm : replaceOne s r.id r.version { r with version := nv, lastModified := now } =
        (s, 0) := by
      apply replaceOne_of_no_match
      intro d hd hc
      exact h2 d hd hc.1 hc.2
    obtain ⟨d, hd, hid⟩ := h1
    cases hfc : findOne s r.id with
    | none => exact absurd ((findOne_eq_none_iff s r.id).mp hfc d hd) (by simp [hid])
    | some x => simp [save, hnm, hfc]

theorem save_insert_vs_conflict_witness :
    ((save (fun _ _ => none) ([] : List (DbDoc Nat)) ⟨1, 4, 0, 0⟩ 9 8).error = none ∧
       (⟨1, 9, 8, 0⟩ : DbDoc Nat) ∈
         (save (fun _ _ => none) ([] : List (DbDoc Nat)) ⟨1, 4, 0, 0⟩ 9 8).store) ∧
    ((save (fun _ _ => none) [(⟨1, 5, 0, 0⟩ : DbDoc Nat)] ⟨1, 4, 0, 0⟩ 9 8).error =
         some .conflict ∧
       (save (fun _ _ => none) [(⟨1, 5, 0, 0⟩ : DbDoc Nat)] ⟨1, 4, 0, 0⟩ 9 8).store =
         [⟨1, 5, 0, 0⟩]) :=
  ⟨((save_insert_vs_conflict (fun _ _ => none) ([] : List (DbDoc Nat))
        ⟨1, 4, 0, 0⟩ 9 8).1 (by decide)).2 rfl,
   (save_insert_vs_conflict (fun _ _ => none) [(⟨1, 5, 0, 0⟩ : DbDoc Nat)]
        ⟨1, 4, 0, 0⟩ 9 8).2 (by decide) (by decide)⟩

/-- C6: every `save` that returns committed has written a document whose
version is the freshly minted token (different from the record's prior
version) and whose `last_modified` is the write time, and has mutated the
caller's in-memory record to carry exactly that version and timestamp. -/
theorem save_committed_new_version {B : Type} [DecidableEq B]
    (viol : List (DbDoc B) → DbDoc B → Option String)
    (s : List (DbDoc B)) (r : DbDoc B) (nv now : Nat)
    (hfresh : nv ≠ r.version)
    (hok : (save viol s r nv now).error = none) :
    (save viol s r nv now).committed = true ∧
    (save viol s r nv now).record = { r with version := nv, lastModified := now } ∧
    (save viol s r nv now).record.version ≠ r.version ∧
    ({ r with version := nv, lastModified := now } : DbDoc B) ∈
      (save viol s r nv now).store := by
  rcases save_cases viol s r nv now with h | h | h
  · rw [h.1] at hok
    exact absurd hok (by simp)
  · obtain ⟨⟨msg, hmsg⟩, -⟩ := h
    rw [hmsg] at hok
    exact absurd hok (by simp)
  · obtain ⟨-, hcom, hrec, hmem, -⟩ := h
    refine ⟨hcom, hrec, ?_, hmem⟩
    rw [hrec]
    exact hfresh

theorem save_committed_new_version_witness :
    (save (fun _ _ => none) ([] : List (DbDoc Nat)) ⟨1, 4, 0, 0⟩ 9 8).committed = true ∧
    (save (fun _ _ => none) ([] : List (DbDoc Nat)) ⟨1, 4, 0, 0⟩ 9 8).record =
      (⟨1, 9, 8, 0⟩ : DbDoc Nat) ∧
    (save (fun _ _ => none) ([] : List (DbDoc Nat)) ⟨1, 4, 0, 0⟩ 9 8).record.version ≠ 4 ∧
    (⟨1, 9, 8, 0⟩ : DbDoc Nat) ∈
      (save (fun _ _ => none) ([] : List (DbDoc Nat)) ⟨1, 4, 0, 0⟩ 9 8).store :=
  save_committed_new_version (fun _ _ => none) ([] : List (DbDoc Nat)) ⟨1, 4, 0, 0⟩ 9 8
    (by decide) rfl

/-- C10: whenever `save` terminates with the `Conflict` failure, the
caller's record still holds its pre-call `version` and `last_modified`, and
the collection is exactly as before the call. -/
theorem save_conflict_leaves_state {B : Type} [DecidableEq B]
    (viol : List (DbDoc B) → DbDoc B → Option String)
    (s : List (DbDoc B)) (r : DbDoc B) (nv now : Nat)
    (hc : (save viol s r nv now).error = some .conflict) :
    (save viol s r nv now).store = s ∧
    (save viol s r nv now).record = r ∧
    (save viol s r nv now).record.version = r.version ∧
    (save viol s r nv now).record.lastModified = r.lastModified := by
  rcases save_cases viol s r nv now with h | h | h
  · exact ⟨h.2.1, h.2.2.1, by rw [h.2.2.1], by rw [h.2.2.1]⟩
  · obtain ⟨⟨msg, hmsg⟩, -⟩ := h
    rw [hmsg] at hc
    exact absurd hc (by simp)
  · rw [h.1] at hc
    exact absurd hc (by simp)

theorem save_conflict_leaves_state_witness :
    (save (fun _ _ => none) [(⟨1, 5, 0, 0⟩ : DbDoc Nat)] ⟨1, 4, 0, 0⟩ 9 8).store =
      [⟨1, 5, 0, 0⟩] ∧
    (save (fun _ _ => none) [(⟨1, 5, 0, 0⟩ : DbDoc Nat)] ⟨1, 4, 0, 0⟩ 9 8).record =
      (⟨1, 4, 0, 0⟩ : DbDoc Nat) ∧
    (save (fun _ _ => none) [(⟨1, 5, 0, 0⟩ : DbDoc Nat)] ⟨1, 4, 0, 0⟩ 9 8).record.version = 4 ∧
    (save (fun _ _ => none) [(⟨1, 5, 0, 0⟩ : DbDoc Nat)] ⟨1, 4, 0, 0⟩ 9 8).record.lastModified =
      0 :=
  save_conflict_leaves_state (fun _ _ => none) [(⟨1, 5, 0, 0⟩ : DbDoc Nat)] ⟨1, 4, 0, 0⟩ 9 8 rfl

/-! ## Claims about the document store adapter and the range query -/

/-- C3: if the returned page is smaller than `limit` (or `limit` was not
given), the reported total is `skip` (0 when absent) plus the page size,
overriding the initial count; if the page is exactly `limit`-sized, the
initial count is reported unchanged. -/
theorem total_count_correction {B : Type} (countStore fetchStore : List (DbDoc B))
    (spec : DbDoc B → Bool) (limit skip : Option Nat) (rom : Bool)
    (docs : List (DbDoc B)) (total : Nat)
    (h : getDocumentsAndCountByFilter countStore fetchStore spec limit skip rom =
      .ok (docs, total)) :
    ((limit = none ∨ docs.length < limit.getD 0) → total = skip.getD 0 + docs.length) ∧
    (limit = some docs.length → total = dbCount countStore spec) := by
  cases hget : getDocumentsByFilter fetchStore spec limit skip rom with
  | error e =>
    simp only [getDocumentsAndCountByFilter, hget] at h
    exact absurd h (by simp)
  | ok ds =>
    simp only [getDocumentsAndCountByFilter, hget] at h
    split at h
    next hcond =>
      rw [Except.ok.injEq, Prod.mk.injEq] at h
      obtain ⟨hd, ht⟩ := h
      subst hd
      constructor
      · intro _
        rw [← ht]
        cases skip <;> simp [Nat.add_comm]
      · intro hl
        rw [hl] at hcond
        simp at hcond
    next hcond =>
      rw [Except.ok.injEq, Prod.mk.injEq] at h
      obtain ⟨hd, ht⟩ := h
      subst hd
      constructor
      · intro hor
        exfalso
        apply hcond
        rcases hor with hn | hlt
        · rw [hn]
          simp
        · simp [hlt]
      · intro _
        exact ht.symm

theorem total_count_correction_witness :
    (((some 5 : Option Nat) = none ∨
        [(⟨2, 0, 0, 0⟩ : DbDoc Nat)].length < (some 5).getD 0) →
       (2 : Nat) = (some 1).getD 0 + [(⟨2, 0, 0, 0⟩ : DbDoc Nat)].length) ∧
    ((some 5 : Option Nat) = some [(⟨2, 0, 0, 0⟩ : DbDoc Nat)].length →
       (2 : Nat) = dbCount [(⟨1, 0, 0, 0⟩ : DbDoc Nat), ⟨2, 0, 0, 0⟩, ⟨3, 0, 0, 0⟩]
         (fun _ => true)) :=
  total_count_correction [(⟨1, 0, 0, 0⟩ : DbDoc Nat), ⟨2, 0, 0, 0⟩, ⟨3, 0, 0, 0⟩]
    [⟨1, 0, 0, 0⟩, ⟨2, 0, 0, 0⟩] (fun _ => true) (some 5) (some 1) true
    [⟨2, 0, 0, 0⟩] 2 rfl

/-- C7: any operator outside `gt`/`ge` makes the last-modified range query
fail with the invalid-operator error whatever the store holds (so before
any store access); `gt` delegates with a strictly-greater filter on
`last_modified` and `ge` with a greater-or-equal filter. -/
theorem last_modified_filter_operators (countStore fetchStore : List (DbDoc ResBody))
    (op : String) (value : Nat) (limit skip : Option Nat) :
    (op ≠ "gt" → op ≠ "ge" →
       getInvitesByLastModified countStore fetchStore op value limit skip =
         .error .invalidFilterOperator) ∧
    (getInvitesByLastModified countStore fetchStore "gt" value limit skip =
       getDocumentsAndCountByFilter countStore fetchStore
         (fun d => decide (value < d.lastModified)) limit skip raiseOnMissingDefault) ∧
    (getInvitesByLastModified countStore fetchStore "ge" value limit skip =
       getDocumentsAndCountByFilter countStore fetchStore
         (fun d => decide (value ≤ d.lastModified)) limit skip raiseOnMissingDefault) := by
  refine ⟨?_, rfl, rfl⟩
  intro h1 h2
  unfold getInvitesByLastModified mongoOperator
  rw [if_neg h1, if_neg h2]

theorem last_modified_filter_operators_witness :
    getInvitesByLastModified [] [] "lt" 3 none none = .error .invalidFilterOperator :=
  (last_modified_filter_operators [] [] "lt" 3 none none).1 (by decide) (by decide)

/-- If nothing matches the filter, the underlying fetch yields the
empty page or the missing-document failure according to
`raise_on_missing`. -/
theorem getDocumentsByFilter_no_match {B : Type} (fetchStore : List (DbDoc B))
    (spec : DbDoc B → Bool) (limit skip : Option Nat) (rom : Bool)
    (hnone : fetchStore.filter spec = []) :
    getDocumentsByFilter fetchStore spec limit skip rom =
      if rom then .error .documentDoesNotExist else .ok [] := by
  unfold getDocumentsByFilter
  rw [hnone]
  cases skip <;> cases limit <;> cases rom <;> simp

/-- C8 as stated claims the adapter returns an empty page on no match
unless the caller explicitly sets the raise-on-missing flag.  The code has
the flag default to True: with an empty store and no flag passed, the
last-modified range query raises `DocumentDoesNotExist` instead of
returning `([], 0)`. -/
theorem missing_match_counterexample :
    getInvitesByLastModified [] [] "gt" 0 none none = .error .documentDoesNotExist ∧
    getInvitesByLastModified [] [] "gt" 0 none none ≠ .ok ([], 0) := by
  constructor
  · rfl
  · intro h
    exact Except.noConfusion
      (show (Except.error DbError.documentDoesNotExist :
          Except DbError (List (DbDoc ResBody) × Nat)) = .ok ([], 0) from h)

/-- C8 amended: when no records match, the adapter reports the absence as a
`DocumentDoesNotExist` (NotFound) failure by default; only a caller that
explicitly clears the raise-on-missing flag gets an empty page (count 0)
back; in particular the last-modified range query, which leaves the flag at
its default, reports zero matches as the NotFound failure. -/
theorem missing_match_behaviour {B : Type} (countStore fetchStore : List (DbDoc B))
    (spec : DbDoc B → Bool) (limit skip : Option Nat)
    (hnone : fetchStore.filter spec = []) :
    (getDocumentsAndCountByFilter countStore fetchStore spec limit skip true =
       .error .documentDoesNotExist) ∧
    (skip = none → limit = none →
       getDocumentsAndCountByFilter countStore fetchStore spec limit skip false =
         .ok ([], 0)) ∧
    (∀ (cs fs : List (DbDoc ResBody)) (value : Nat) (l2 s2 : Option Nat),
       fs.filter (lastModifiedSpec "$gt" value) = [] →
         getInvitesByLastModified cs fs "gt" value l2 s2 = .error .documentDoesNotExist) := by
  refine ⟨?_, ?_, ?_⟩
  · have hg := getDocumentsByFilter_no_match fetchStore spec limit skip true hnone
    rw [if_pos rfl] at hg
    simp [getDocumentsAndCountByFilter, hg]
  · intro hs hl
    subst hs
    subst hl
    have hg := getDocumentsByFilter_no_match fetchStore spec none none false hnone
    simp only [Bool.false_eq_true, if_neg] at hg
    simp [getDocumentsAndCountByFilter, hg]
  · intro cs fs value l2 s2 hf
    have hg := getDocumentsByFilter_no_match fs (lastModifiedSpec "$gt" value) l2 s2 true hf
    rw [if_pos rfl] at hg
    show getDocumentsAndCountByFilter cs fs (lastModifiedSpec "$gt" value) l2 s2
      raiseOnMissingDefault = .error .documentDoesNotExist
    simp [getDocumentsAndCountByFilter, raiseOnMissingDefault, hg]

theorem missing_match_behaviour_witness :
    (getDocumentsAndCountByFilter ([] : List (DbDoc Nat)) [] (fun _ => true) none none true =
       .error .documentDoesNotExist) ∧
    ((none : Option Nat) = none → (none : Option Nat) = none →
       getDocumentsAndCountByFilter ([] : List (DbDoc Nat)) [] (fun _ => true) none none false =
         .ok ([], 0)) ∧
    (∀ (cs fs : List (DbDoc ResBody)) (value : Nat) (l2 s2 : Option Nat),
       fs.filter (lastModifiedSpec "$gt" value) = [] →
         getInvitesByLastModified cs fs "gt" value l2 s2 = .error .documentDoesNotExist) :=
  missing_match_behaviour ([] : List (DbDoc Nat)) [] (fun _ => true) none none rfl

/-! ## Claim about the unique external_id index -/

/-- C9: when the insert during save violates the unique `external_id`
index, the caller sees the distinct duplicate-external-id `BadRequest`
(neither a retry nor a `Conflict`); and because that index is sparse,
records with an absent `external_id` never collide with each other — the
save commits. -/
theorem duplicate_external_id_surfaced (s : List (DbDoc ResBody)) (r : DbDoc ResBody)
    (nv now : Nat)
    (hid : ∀ d ∈ s, d.id ≠ r.id)
    (hscim : ∀ d ∈ s, d.body.scimId ≠ r.body.scimId) :
    ((∃ e, r.body.externalId = some e ∧ ∃ d ∈ s, d.body.externalId = some e) →
       saveUserResource s r nv now = .badRequest "externalID must be unique") ∧
    (r.body.externalId = none →
       (save uniqueIndexViolation s r nv now).error = none ∧
       saveUserResource s r nv now = .ok (save uniqueIndexViolation s r nv now)) := by
  have hnm : replaceOne s r.id r.version { r with version := nv, lastModified := now } =
      (s, 0) :=
    replaceOne_of_no_match _ _ _ _ (fun d hd hc => hid d hd hc.1)
  have hf : findOne s r.id = none := (findOne_eq_none_iff s r.id).mpr hid
  have hany : s.any (fun x => x.body.scimId == r.body.scimId) = false := by
    rw [List.any_eq_false]
    intro x hx
    simp [hscim x hx]
  constructor
  · rintro ⟨e, he, d, hd, hde⟩
    have hanyE : s.any (fun x => x.body.externalId == some e) = true := by
      rw [List.any_eq_true]
      exact ⟨d, hd, by simp [hde]⟩
    have hv : uniqueIndexViolation s { r with version := nv, lastModified := now } =
        some "unique-external-id" := by
      simp only [uniqueIndexViolation]
      rw [if_neg (by simp [hany])]
      show (match r.body.externalId with
        | none => none
        | some e =>
          if s.any (fun x => x.body.externalId == some e) then some "unique-external-id"
          else none) = some "unique-external-id"
      rw [he]
      simp [hanyE]
    have herr : (save uniqueIndexViolation s r nv now).error =
        some (.duplicateKey "unique-external-id") := by
      simp [save, hnm, hf, hv]
    unfold saveUserResource dupKeyToOutcome
    rw [herr]
    rfl
  · intro hnone
    have hv : uniqueIndexViolation s { r with version := nv, lastModified := now } = none := by
      simp only [uniqueIndexViolation]
      rw [if_neg (by simp [hany])]
      show (match r.body.externalId with
        | none => none
        | some e =>
          if s.any (fun x => x.body.externalId == some e) then some "unique-external-id"
          else none) = none
      rw [hnone]
    have herr : (save uniqueIndexViolation s r nv now).error = none := by
      simp [save, hnm, hf, hv]
    refine ⟨herr, ?_⟩
    unfold saveUserResource dupKeyToOutcome
    rw [herr]

theorem duplicate_external_id_surfaced_witness :
    saveUserResource [⟨1, 2, 3, ⟨"s1", some "e1", 0⟩⟩] ⟨9, 8, 7, ⟨"s2", some "e1", 0⟩⟩ 10 11 =
      .badRequest "externalID must be unique" :=
  (duplicate_external_id_surfaced [⟨1, 2, 3, ⟨"s1", some "e1", 0⟩⟩]
      ⟨9, 8, 7, ⟨"s2", some "e1", 0⟩⟩ 10 11 (by decide) (by decide)).1
    ⟨"e1", rfl, ⟨1, 2, 3, ⟨"s1", some "e1", 0⟩⟩, by decide, rfl⟩

/-! ## Claim about the dual-store commit ordering -/

/-- Every graph-store write in the trace is strictly preceded by a
successful document-store commit. -/
def graphAfterDocCommit (tr : List Ev) : Prop :=
  ∀ i : Fin tr.length, tr.get i = Ev.graphSave →
    ∃ j : Fin tr.length, j.val < i.val ∧ (tr.get j).isDocCommit = true

instance (tr : List Ev) : Decidable (graphAfterDocCommit tr) := by
  unfold graphAfterDocCommit
  infer_instance

theorem graphAfterDocCommit_of_no_graphSave (tr : List Ev) (h : Ev.graphSave ∉ tr) :
    graphAfterDocCommit tr := by
  intro i hi
  exact absurd (hi ▸ tr.get_mem i.val i.isLt) h

theorem graphAfterDocCommit_append (t : List Ev) (hno : Ev.graphSave ∉ t)
    (e : Ev) (he : e ∈ t) (hc : e.isDocCommit = true) :
    graphAfterDocCommit (t ++ [Ev.graphSave]) := by
  intro i hi
  have hge : t.length ≤ i.val := by
    by_contra hlt
    push_neg at hlt
    have hgi : (t ++ [Ev.graphSave]).get i = t.get ⟨i.val, hlt⟩ := by
      rw [List.get_append i.val hlt]
    rw [hi] at hgi
    exact hno (hgi ▸ t.get_mem i.val hlt)
  obtain ⟨k, hk⟩ := List.get_of_mem he
  refine ⟨⟨k.val, ?_⟩, ?_, ?_⟩
  · rw [List.length_append, List.length_singleton]
    exact Nat.lt_succ_of_lt k.isLt
  · exact lt_of_lt_of_le k.isLt hge
  · rw [List.get_append k.val k.isLt, hk, hc]

theorem save_trace_no_graphSave {B : Type} [DecidableEq B]
    (viol : List (DbDoc B) → DbDoc B → Option String)
    (s : List (DbDoc B)) (r : DbDoc B) (nv now : Nat) :
    Ev.graphSave ∉ (save viol s r nv now).trace := by
  rcases save_cases viol s r nv now with h | h | h
  · rw [h.2.2.2]
    decide
  · rw [h.2.2.2]
    decide
  · rcases h.2.2.2.2 with ht | ⟨m, ht, -⟩
    · rw [ht]
      decide
    · rw [ht]
      simp

theorem save_success_has_commit {B : Type} [DecidableEq B]
    (viol : List (DbDoc B) → DbDoc B → Option String)
    (s : List (DbDoc B)) (r : DbDoc B) (nv now : Nat)
    (hok : (save viol s r nv now).error = none) :
    ∃ e ∈ (save viol s r nv now).trace, e.isDocCommit = true := by
  rcases save_cases viol s r nv now with h | h | h
  · rw [h.1] at hok
    exact absurd hok (by simp)
  · obtain ⟨⟨msg, hmsg⟩, -⟩ := h
    rw [hmsg] at hok
    exact absurd hok (by simp)
  · rcases h.2.2.2.2 with ht | ⟨m, ht, hm⟩
    · exact ⟨.docInsert, by rw [ht]; simp, rfl⟩
    · refine ⟨.docReplace m, by rw [ht]; simp, ?_⟩
      simp [Ev.isDocCommit, hm]

theorem dualCommit_graph_ordering (graphStore : List GraphGroup) (db1 : ScimApiGroup)
    (sres : SaveResult GroupBody)
    (hno : Ev.graphSave ∉ sres.trace)
    (hcommit : sres.error = none → ∃ e ∈ sres.trace, e.isDocCommit = true) :
    graphAfterDocCommit (dualCommit graphStore db1 sres).trace := by
  unfold dualCommit
  cases herr : sres.error with
  | some e => exact graphAfterDocCommit_of_no_graphSave _ hno
  | none =>
    obtain ⟨e, he, hc⟩ := hcommit herr
    by_cases hcom : sres.committed = true
    · rw [if_pos hcom]
      exact graphAfterDocCommit_append sres.trace hno e he hc
    · rw [if_neg hcom]
      exact graphAfterDocCommit_of_no_graphSave _ hno

theorem updateGroup_graph_ordering (docStore : List (DbDoc GroupBody))
    (graphStore : List GraphGroup) (scim : ScimGroupReq) (dbGroup : ScimApiGroup)
    (nv now : Nat) :
    graphAfterDocCommit (updateGroup docStore graphStore scim dbGroup nv now).trace := by
  simp only [updateGroup]
  split
  · apply dualCommit_graph_ordering
    · exact save_trace_no_graphSave _ _ _ _ _
    · exact save_success_has_commit _ _ _ _ _
  · exact graphAfterDocCommit_of_no_graphSave [] (by decide)

theorem createGroup_graph_write_first (docStore : List (DbDoc GroupBody))
    (graphStore : List GraphGroup) (scim : ScimGroupReq) (gid : Nat) (sid : String)
    (iv nv now : Nat) :
    (createGroup docStore graphStore scim gid sid iv nv now).trace.head? =
      some .graphSave := by
  simp only [createGroup]
  split <;> rfl

/-- C2 amended: in `update_group` a write to the graph store happens only
strictly after a successful document-store commit; in `create_group`,
however, the graph-store write comes first — the very first store access of
every `create_group` run is the graph save, before any document-store
write. -/
theorem dual_store_commit_order :
    (∀ (docStore : List (DbDoc GroupBody)) (graphStore : List GraphGroup)
       (scim : ScimGroupReq) (dbGroup : ScimApiGroup) (nv now : Nat),
       graphAfterDocCommit (updateGroup docStore graphStore scim dbGroup nv now).trace) ∧
    (∀ (docStore : List (DbDoc GroupBody)) (graphStore : List GraphGroup)
       (scim : ScimGroupReq) (gid : Nat) (sid : String) (iv nv now : Nat),
       (createGroup docStore graphStore scim gid sid iv nv now).trace.head? =
         some .graphSave) :=
  ⟨fun ds gs scim dbg nv now => updateGroup_graph_ordering ds gs scim dbg nv now,
   fun ds gs scim gid sid iv nv now => createGroup_graph_write_first ds gs scim gid sid iv nv now⟩

theorem dual_store_commit_order_witness :
    ∃ j : Fin (updateGroup [dbg0.toDoc] [gr0] ⟨"Team2", [], 7⟩ dbg0 99 98).trace.length,
      j.val < 1 ∧
        ((updateGroup [dbg0.toDoc] [gr0] ⟨"Team2", [], 7⟩ dbg0 99 98).trace.get j).isDocCommit =
          true :=
  (dual_store_commit_order.1 [dbg0.toDoc] [gr0] ⟨"Team2", [], 7⟩ dbg0 99 98)
    ⟨1, by decide⟩ (by decide)

/-- C2 as stated is refuted by `create_group`: on a concrete run its trace
is `[graphSave, docReplace 0, docFind, docInsert]`, whose graph-store write
is preceded by no document-store commit. -/
theorem dual_store_commit_order_counterexample :
    ¬ graphAfterDocCommit (createGroup [] [] ⟨"g", [], 0⟩ 1 "sid" 2 3 4).trace := by
  decide

/-! ## Claims about the group projection reconciler -/

theorem strContains_users_users : strContains "Users" "Users" = true := by decide

theorem strContains_groups_users : strContains "Groups" "Users" = false := by decide

theorem strContains_groups_groups : strContains "Groups" "Groups" = true := by decide

theorem filterMap_id_map_some {α : Type} (L : List α) : (L.map some).filterMap id = L := by
  induction L with
  | nil => rfl
  | cons a as ih => simp [ih]

/-- In a member list whose `(isUser, identifier)` keys are pairwise
distinct, a `find?` whose predicate picks out exactly the key of a listed
member finds that member. -/
theorem find?_eq_of_key (L : List GraphMember)
    (hkeys : L.Pairwise fun a b => a.isUser ≠ b.isUser ∨ a.identifier ≠ b.identifier)
    (m : GraphMember) (hm : m ∈ L) (p : GraphMember → Bool)
    (hpm : p m = true)
    (hkey : ∀ x, p x = true → x.isUser = m.isUser ∧ x.identifier = m.identifier) :
    L.find? p = some m := by
  induction L with
  | nil => cases hm
  | cons a as ih =>
    rw [List.pairwise_cons] at hkeys
    rcases List.mem_cons.mp hm with rfl | hmas
    · exact List.find?_cons_of_pos as hpm
    · have hpa : p a = false := by
        by_contra hpa
        rw [Bool.not_eq_false] at hpa
        obtain ⟨h1, h2⟩ := hkey a hpa
        rcases hkeys.1 m hmas with hne | hne
        · exact hne h1
        · exact hne h2
      rw [List.find?_cons_of_neg as (by simp [hpa])]
      exact ih hkeys.2 hmas

theorem getMemberUser_stored (g : GraphGroup) (L : List GraphMember)
    (hg : g.members = L.map some)
    (hkeys : L.Pairwise fun a b => a.isUser ≠ b.isUser ∨ a.identifier ≠ b.identifier)
    (m : GraphMember) (hm : m ∈ L) (hmu : m.isUser = true) :
    g.getMemberUser m.identifier = some m := by
  unfold GraphGroup.getMemberUser
  rw [hg, filterMap_id_map_some]
  apply find?_eq_of_key L hkeys m hm
  · simp [hmu]
  · intro x hx
    rw [Bool.and_eq_true] at hx
    exact ⟨by rw [hx.1, hmu], by simpa using hx.2⟩

theorem getMemberOfKindGroup_stored (g : GraphGroup) (L : List GraphMember)
    (hg : g.members = L.map some)
    (hkeys : L.Pairwise fun a b => a.isUser ≠ b.isUser ∨ a.identifier ≠ b.identifier)
    (m : GraphMember) (hm : m ∈ L) (hmu : m.isUser = false) :
    g.getMemberOfKindGroup m.identifier = some m := by
  unfold GraphGroup.getMemberOfKindGroup
  rw [hg, filterMap_id_map_some]
  apply find?_eq_of_key L hkeys m hm
  · simp [hmu]
  · intro x hx
    rw [Bool.and_eq_true] at hx
    refine ⟨?_, by simpa using hx.2⟩
    rw [hmu]
    have := hx.1
    cases hxi : x.isUser
    · rfl
    · rw [hxi] at this
      exact absurd this (by decide)

/-- The desired SCIM member entry describing an existing graph member
unchanged: same identifier and display label, with a `ref` whose path names
the member's resource type. -/
def memberToScim (m : GraphMember) : ScimMember :=
  { value := m.identifier,
    ref := if m.isUser then "Users" else "Groups",
    display := m.displayName }

theorem memberStep_stored (g : GraphGroup) (L : List GraphMember)
    (hg : g.members = L.map some)
    (hkeys : L.Pairwise fun a b => a.isUser ≠ b.isUser ∨ a.identifier ≠ b.identifier)
    (m : GraphMember) (hm : m ∈ L) (b : Bool) (acc : List (Option GraphMember)) :
    memberStep g (b, acc) (memberToScim m) = (b, acc ++ [some m]) := by
  cases hmu : m.isUser with
  | true =>
    have hms : memberToScim m = ⟨m.identifier, "Users", m.displayName⟩ := by
      simp [memberToScim, hmu]
    have hlook := getMemberUser_stored g L hg hkeys m hm hmu
    rw [hms]
    simp [memberStep, strContains_users_users, hlook]
  | false =>
    have hms : memberToScim m = ⟨m.identifier, "Groups", m.displayName⟩ := by
      simp [memberToScim, hmu]
    have hlook := getMemberOfKindGroup_stored g L hg hkeys m hm hmu
    rw [hms]
    simp [memberStep, strContains_groups_users, strContains_groups_groups, hlook]

theorem foldl_memberStep_stored (g : GraphGroup) (L : List GraphMember)
    (hg : g.members = L.map some)
    (hkeys : L.Pairwise fun a b => a.isUser ≠ b.isUser ∨ a.identifier ≠ b.identifier)
    (M : List GraphMember) (hsub : ∀ m ∈ M, m ∈ L) (b : Bool)
    (acc : List (Option GraphMember)) :
    (M.map memberToScim).foldl (memberStep g) (b, acc) = (b, acc ++ M.map some) := by
  induction M generalizing acc with
  | nil => simp
  | cons m ms ih =>
    rw [List.map_cons, List.foldl_cons,
      memberStep_stored g L hg hkeys m (hsub m (List.mem_cons_self m ms)) b acc,
      ih (fun x hx => hsub x (List.mem_cons_of_mem m hx)) (acc ++ [some m])]
    simp

theorem listSetEq_self {α : Type} [BEq α] [LawfulBEq α] (a : List α) : listSetEq a a = true := by
  have h : a.all (fun x => a.contains x) = true := by
    rw [List.all_eq_true]
    intro x hx
    simpa using hx
  simp [listSetEq, h]

/-- C4: updating a stored group with a desired state identical to it (same
display name, same members with the same labels — here a member list with
well-formed entries and pairwise-distinct keys — and the same extension
data) performs zero store accesses and returns the stored record with its
version unchanged. -/
theorem update_group_noop (docStore : List (DbDoc GroupBody)) (graphStore : List GraphGroup)
    (dbGroup : ScimApiGroup) (L : List GraphMember) (nv now : Nat)
    (hm : dbGroup.graph.members = L.map some)
    (hkeys : L.Pairwise fun a b => a.isUser ≠ b.isUser ∨ a.identifier ≠ b.identifier) :
    updateGroup docStore graphStore
      ⟨dbGroup.graph.displayName, L.map memberToScim, dbGroup.extData⟩ dbGroup nv now =
      { group := dbGroup, docStore := docStore, graphStore := graphStore,
        error := none, trace := [] } := by
  have hfold := foldl_memberStep_stored dbGroup.graph L hm hkeys L (fun x h => h) false []
  simp only [updateGroup, hfold]
  rw [hm]
  simp [listSetEq_self]

theorem update_group_noop_witness :
    dbg0.graph.members = [mU, mG].map some ∧
    ([mU, mG].Pairwise fun a b => a.isUser ≠ b.isUser ∨ a.identifier ≠ b.identifier) ∧
    updateGroup [dbg0.toDoc] [gr0]
        ⟨dbg0.graph.displayName, [mU, mG].map memberToScim, dbg0.extData⟩ dbg0 99 98 =
      { group := dbg0, docStore := [dbg0.toDoc], graphStore := [gr0],
        error := none, trace := [] } :=
  ⟨by decide, by decide,
   update_group_noop [dbg0.toDoc] [gr0] dbg0 [mU, mG] 99 98 (by decide) (by decide)⟩

/-- C5: the failing input.  The stored group has members `u1` (user) and
`g1` (group); the desired state adds the group-kind member `g2` with
display label "Group Two".  The reconciler does mark membership changed and
commits, but the membership it applies is `[none]`: the new group-kind
member's identifier and label are dropped because the source re-runs the
`get_member_group` lookup instead of constructing the member. -/
theorem update_group_new_member_kind_group_bug :
    (updateGroup [dbg0.toDoc] [gr0] scimNewG dbg0 99 98).error = none ∧
    (updateGroup [dbg0.toDoc] [gr0] scimNewG dbg0 99 98).group.graph.members = [none] ∧
    (updateGroup [dbg0.toDoc] [gr0] scimNewG dbg0 99 98).graphStore =
      [{ gr0 with members := [none] }] ∧
    (scimNewG.members.foldl (memberStep dbg0.graph) (false, [])).1 = true := by
  decide

end EduidScim
